import Mathlib

/-!
# KochCurve: the fractal generator of `KochCurveScene`

A shallow embedding of `src/scenes/KochCurveScene.{h,cpp}` and of the argument
handling of `src/main.cpp`.

* The C++ `double` is an abstract carrier `α` with the operations the code uses
  (`+ - * /`, unary minus, decimal literals, `std::sqrt`, `std::pow`).  The
  definitions are generic and computable; `Float` gives the machine reading and
  `ℝ` the exact reading.  Properties that only depend on the control flow
  (counts, order, caching) are proved for every carrier.
* `std::vector<double>` is `List α`; `push_back x` is `· ++ [x]`.
* `int` is `Int` (the code only compares depths and adds one below `current`).
* The OpenGL / ImGui calls have no effect on `n`, `current`, `data`, `cache`
  except for the slider, which stores a value of its range `[0, 10]` in `n`.
-/

namespace KochCurve

/-- The two `<cmath>` functions used by `generatePoint`. -/
class DoubleMath (α : Type) where
  /-- The function `std::sqrt`. -/
  sqrt : α → α
  /-- The function `std::pow`. -/
  pow : α → α → α

/-- IEEE double reading. -/
instance : DoubleMath Float := ⟨Float.sqrt, Float.pow⟩

/-- Exact real reading. -/
noncomputable instance : DoubleMath ℝ := ⟨Real.sqrt, fun x y => x ^ y⟩

section Definitions

variable {α : Type} [Add α] [Sub α] [Mul α] [Div α] [Neg α] [OfScientific α] [DoubleMath α]

/-- The fields of `KochCurveScene` that `Update` and `generatePoint` touch. -/
structure KochCurveScene (α : Type) where
  /-- Number for the user interface (requested depth). -/
  n : Int
  /-- Number of the current status (realized depth). -/
  current : Int
  /-- Published coordinates, `x0, y0, x1, y1, ...`. -/
  data : List α
  /-- Scratch vector filled by `generatePoint`. -/
  cache : List α

/-- The constructor `KochCurveScene() = default` with the member initialisers of the header. -/
def KochCurveScene.default : KochCurveScene α :=
  { n := 0, current := 0, data := [-0.5, -0.5, 0.5, -0.5, 0.0, 0.5], cache := [] }

/-- The constructor `KochCurveScene::KochCurveScene(int n)`. -/
def KochCurveScene.new (n : Int) : KochCurveScene α :=
  let this : KochCurveScene α := KochCurveScene.default
  let this := { this with n := n }
  if this.n > 10 then
    { this with n := 10 }
  else if this.n < 0 then
    { this with n := 0 }
  else
    this

/-- The depth `main` passes to `Game::Init`: `argc` is the argument count, `ok` the
state of the stream after `input >> n`, `v` the value that extraction left in `n`. -/
def mainDepth (argc : Int) (ok : Bool) (v : Int) : Int :=
  let n : Int := 0
  if argc > 2 then
    n
  else if argc = 2 then
    let n := v
    if !ok then
      n
    else if n < 0 then
      0
    else if n > 10 then
      10
    else
      n
  else
    n

/-- The method `KochCurveScene::generatePoint`; the member `current` is read, the member
`cache` is threaded through. -/
def generatePoint (current : Int) (cache : List α) (x_start y_start x_end y_end : α)
    (depth : Int) : List α :=
  if current > depth ∧ depth ≥ 0 ∧ current ≥ 0 then
    let x_diff := x_end - x_start
    let y_diff := y_end - y_start
    let length := DoubleMath.sqrt
      (DoubleMath.pow (x_diff / 3.0) 2.0 + DoubleMath.pow (y_diff / 3.0) 2.0)
    let height := DoubleMath.sqrt (3.0 : α) * length * 0.5
    let x_norm := -(x_diff / 3.0) / length
    let y_norm := -(y_diff / 3.0) / length
    let center_x := 0.5 * x_diff + x_start
    let center_y := 0.5 * y_diff + y_start
    let cache := generatePoint current cache x_start y_start
      (x_diff / 3.0 + x_start) (y_diff / 3.0 + y_start) (depth + 1)
    -- First point
    let cache := cache ++ [x_diff / 3.0 + x_start]
    let cache := cache ++ [y_diff / 3.0 + y_start]
    let cache := generatePoint current cache (x_diff / 3.0 + x_start) (y_diff / 3.0 + y_start)
      (center_x - y_norm * height) (center_y + x_norm * height) (depth + 1)
    -- Second point
    let cache := cache ++ [center_x - y_norm * height]
    let cache := cache ++ [center_y + x_norm * height]
    let cache := generatePoint current cache (center_x - y_norm * height)
      (center_y + x_norm * height) ((2.0 / 3.0) * x_diff + x_start)
      ((2.0 / 3.0) * y_diff + y_start) (depth + 1)
    -- Third point
    let cache := cache ++ [(2.0 / 3.0) * x_diff + x_start]
    let cache := cache ++ [(2.0 / 3.0) * y_diff + y_start]
    generatePoint current cache ((2.0 / 3.0) * x_diff + x_start)
      ((2.0 / 3.0) * y_diff + y_start) x_end y_end (depth + 1)
  else
    cache
termination_by (current - depth).toNat
decreasing_by all_goals (simp_wf; omega)

/-- The method `KochCurveScene::Update`. -/
def Update (st : KochCurveScene α) : KochCurveScene α :=
  if st.current ≠ st.n then
    let st := { st with current := st.n }
    -- Define a new vector
    let st := { st with cache := [] }
    -- Update the vertices
    let st := { st with cache := st.cache ++ [-0.5] }
    let st := { st with cache := st.cache ++ [-0.5] }
    let st := { st with cache := generatePoint st.current st.cache (-0.5) (-0.5) 0.5 (-0.5) 0 }
    let st := { st with cache := st.cache ++ [0.5] }
    let st := { st with cache := st.cache ++ [-0.5] }
    let st := { st with cache := generatePoint st.current st.cache 0.5 (-0.5) 0.0 0.5 0 }
    let st := { st with cache := st.cache ++ [0.0] }
    let st := { st with cache := st.cache ++ [0.5] }
    let st := { st with cache := generatePoint st.current st.cache 0.0 0.5 (-0.5) (-0.5) 0 }
    -- Update data array
    { st with data := st.cache }
  else
    st

/-- The slider of `KochCurveScene::ImGuiRender`: `ImGui::SliderInt("", &n, 0, 10)` stores the
slider position `v` in `n`. -/
def ImGuiRender (st : KochCurveScene α) (v : Int) : KochCurveScene α :=
  { st with n := v }

/-- The vertices `Render` draws as a line loop: `data` read as `x, y` pairs
(`data.size() / 2` of them). -/
def vertices : List α → List (α × α)
  | x :: y :: rest => (x, y) :: vertices rest
  | _ => []

/-- A vertex list written out as the flat coordinate vector the code stores. -/
def coords : List (α × α) → List α
  | [] => []
  | p :: rest => p.1 :: p.2 :: coords rest

/-- The point pushed under the comment `First point`. -/
def firstPoint (s e : α × α) : α × α :=
  ((e.1 - s.1) / 3.0 + s.1, (e.2 - s.2) / 3.0 + s.2)

/-- The value of the local `length` of `generatePoint`. -/
def segLength (s e : α × α) : α :=
  DoubleMath.sqrt (DoubleMath.pow ((e.1 - s.1) / 3.0) 2.0 + DoubleMath.pow ((e.2 - s.2) / 3.0) 2.0)

/-- The point pushed under the comment `Second point`. -/
def secondPoint (s e : α × α) : α × α :=
  (0.5 * (e.1 - s.1) + s.1
      - -((e.2 - s.2) / 3.0) / segLength s e * (DoubleMath.sqrt (3.0 : α) * segLength s e * 0.5),
   0.5 * (e.2 - s.2) + s.2
      + -((e.1 - s.1) / 3.0) / segLength s e * (DoubleMath.sqrt (3.0 : α) * segLength s e * 0.5))

/-- The point pushed under the comment `Third point`. -/
def thirdPoint (s e : α × α) : α × α :=
  ((2.0 / 3.0) * (e.1 - s.1) + s.1, (2.0 / 3.0) * (e.2 - s.2) + s.2)

/-- The squared Euclidean distance between two points. -/
def sqDist (p q : α × α) : α :=
  (q.1 - p.1) * (q.1 - p.1) + (q.2 - p.2) * (q.2 - p.2)

/-- A vertex list drawn as a closed line loop has no segment of zero length: every vertex
differs from its cyclic successor (the successor of the last vertex is the first). -/
def NoZeroSegment (L : List (α × α)) : Prop :=
  ∀ (i : Nat) (hi : i < L.length),
    L.get ⟨i, hi⟩ ≠ L.get ⟨(i + 1) % L.length, Nat.mod_lt _ (Nat.zero_lt_of_lt hi)⟩

/-- The sequence `G(s, e, d)` of the specification: empty when `d ≥ n`, otherwise the four
sub-edges expanded in order with `p1`, `peak`, `p2` in between. -/
def specG (n : Int) (s e : α × α) (d : Int) : List (α × α) :=
  if n ≤ d then
    []
  else
    let p1 := firstPoint s e
    let peak := secondPoint s e
    let p2 := thirdPoint s e
    specG n s p1 (d + 1) ++ [p1] ++ specG n p1 peak (d + 1) ++ [peak]
      ++ specG n peak p2 (d + 1) ++ [p2] ++ specG n p2 e (d + 1)
termination_by (n - d).toNat
decreasing_by all_goals (simp_wf; omega)

/-- The sequence of the specification for the whole loop at depth `n`. -/
def specLoop (n : Int) : List (α × α) :=
  [((-0.5 : α), (-0.5 : α))] ++ specG n (-0.5, -0.5) (0.5, -0.5) 0
    ++ [((0.5 : α), (-0.5 : α))] ++ specG n (0.5, -0.5) (0.0, 0.5) 0
    ++ [((0.0 : α), (0.5 : α))] ++ specG n (0.0, 0.5) (-0.5, -0.5) 0

/-- The states the program can be in: either constructor, then slider moves within the
slider range and `Update` calls in any order. -/
inductive Reachable : KochCurveScene α → Prop
  | default : Reachable KochCurveScene.default
  | new (n : Int) : Reachable (KochCurveScene.new n)
  | slider (st : KochCurveScene α) (v : Int) :
      Reachable st → 0 ≤ v → v ≤ 10 → Reachable (ImGuiRender st v)
  | update (st : KochCurveScene α) : Reachable st → Reachable (Update st)

/-- The calls of `generatePoint` made while `Update` rebuilds at realized depth `current`:
the three calls of `Update`, and the four recursive calls of every call that passes the guard.
A call is the start point, the end point and the depth. -/
inductive Called (current : Int) : α × α → α × α → Int → Prop
  | edge1 : Called current (-0.5, -0.5) (0.5, -0.5) 0
  | edge2 : Called current (0.5, -0.5) (0.0, 0.5) 0
  | edge3 : Called current (0.0, 0.5) (-0.5, -0.5) 0
  | sub1 (s e : α × α) (d : Int) : Called current s e d →
      (current > d ∧ d ≥ 0 ∧ current ≥ 0) → Called current s (firstPoint s e) (d + 1)
  | sub2 (s e : α × α) (d : Int) : Called current s e d →
      (current > d ∧ d ≥ 0 ∧ current ≥ 0) →
      Called current (firstPoint s e) (secondPoint s e) (d + 1)
  | sub3 (s e : α × α) (d : Int) : Called current s e d →
      (current > d ∧ d ≥ 0 ∧ current ≥ 0) →
      Called current (secondPoint s e) (thirdPoint s e) (d + 1)
  | sub4 (s e : α × α) (d : Int) : Called current s e d →
      (current > d ∧ d ≥ 0 ∧ current ≥ 0) → Called current (thirdPoint s e) e (d + 1)

/-- The method `generatePoint` run with a bound `fuel` on the nesting of calls: `none` when
the bound is hit. -/
def generatePointFuel (fuel : Nat) (current : Int) (cache : List α)
    (x_start y_start x_end y_end : α) (depth : Int) : Option (List α) :=
  match fuel with
  | 0 => none
  | fuel + 1 =>
    if current > depth ∧ depth ≥ 0 ∧ current ≥ 0 then
      let x_diff := x_end - x_start
      let y_diff := y_end - y_start
      let length := DoubleMath.sqrt
        (DoubleMath.pow (x_diff / 3.0) 2.0 + DoubleMath.pow (y_diff / 3.0) 2.0)
      let height := DoubleMath.sqrt (3.0 : α) * length * 0.5
      let x_norm := -(x_diff / 3.0) / length
      let y_norm := -(y_diff / 3.0) / length
      let center_x := 0.5 * x_diff + x_start
      let center_y := 0.5 * y_diff + y_start
      (generatePointFuel fuel current cache x_start y_start
        (x_diff / 3.0 + x_start) (y_diff / 3.0 + y_start) (depth + 1)).bind fun cache =>
      let cache := cache ++ [x_diff / 3.0 + x_start]
      let cache := cache ++ [y_diff / 3.0 + y_start]
      (generatePointFuel fuel current cache (x_diff / 3.0 + x_start) (y_diff / 3.0 + y_start)
        (center_x - y_norm * height) (center_y + x_norm * height) (depth + 1)).bind fun cache =>
      let cache := cache ++ [center_x - y_norm * height]
      let cache := cache ++ [center_y + x_norm * height]
      (generatePointFuel fuel current cache (center_x - y_norm * height)
        (center_y + x_norm * height) ((2.0 / 3.0) * x_diff + x_start)
        ((2.0 / 3.0) * y_diff + y_start) (depth + 1)).bind fun cache =>
      let cache := cache ++ [(2.0 / 3.0) * x_diff + x_start]
      let cache := cache ++ [(2.0 / 3.0) * y_diff + y_start]
      generatePointFuel fuel current cache ((2.0 / 3.0) * x_diff + x_start)
        ((2.0 / 3.0) * y_diff + y_start) x_end y_end (depth + 1)
    else
      some cache

end Definitions

/-- The point `q` lies in the closed disc that has the segment from `s` to `e` as a diameter
(the distance from `2 q` to `s + e` is at most the distance from `s` to `e`). -/
def InDisc (s e q : ℝ × ℝ) : Prop :=
  (q.1 + q.1 - s.1 - e.1) ^ 2 + (q.2 + q.2 - s.2 - e.2) ^ 2 ≤ sqDist s e

section Generic

variable {α : Type} [Add α] [Sub α] [Mul α] [Div α] [Neg α] [OfScientific α] [DoubleMath α]

/-! ## Control flow: facts that hold for every carrier -/

set_option linter.unusedSectionVars false

theorem vertices_coords (l : List (α × α)) : vertices (coords l) = l := by
  induction l with
  | nil => rfl
  | cons p rest ih => simp [coords, vertices, ih]

theorem coords_append (l₁ l₂ : List (α × α)) : coords (l₁ ++ l₂) = coords l₁ ++ coords l₂ := by
  induction l₁ with
  | nil => rfl
  | cons p rest ih => simp [coords, ih]

theorem length_coords (l : List (α × α)) : (coords l).length = 2 * l.length := by
  induction l with
  | nil => rfl
  | cons p rest ih => simp [coords, ih]; omega

/-- One unfolding of `generatePoint` when the guard holds. -/
theorem generatePoint_guard (current : Int) (cache : List α) (s e : α × α) (d : Int)
    (h : current > d ∧ d ≥ 0 ∧ current ≥ 0) :
    generatePoint current cache s.1 s.2 e.1 e.2 d =
      generatePoint current
        (generatePoint current
          (generatePoint current
            (generatePoint current cache s.1 s.2 (firstPoint s e).1 (firstPoint s e).2 (d + 1)
              ++ [(firstPoint s e).1] ++ [(firstPoint s e).2])
            (firstPoint s e).1 (firstPoint s e).2 (secondPoint s e).1 (secondPoint s e).2 (d + 1)
            ++ [(secondPoint s e).1] ++ [(secondPoint s e).2])
          (secondPoint s e).1 (secondPoint s e).2 (thirdPoint s e).1 (thirdPoint s e).2 (d + 1)
          ++ [(thirdPoint s e).1] ++ [(thirdPoint s e).2])
        (thirdPoint s e).1 (thirdPoint s e).2 e.1 e.2 (d + 1) := by
  rw [generatePoint, if_pos h]
  rfl

/-- No unfolding of `generatePoint` when the guard fails. -/
theorem generatePoint_stop (current : Int) (cache : List α) (xs ys xe ye : α) (d : Int)
    (h : ¬ (current > d ∧ d ≥ 0 ∧ current ≥ 0)) :
    generatePoint current cache xs ys xe ye d = cache := by
  rw [generatePoint, if_neg h]

theorem specG_stop (n : Int) (s e : α × α) (d : Int) (h : n ≤ d) : specG n s e d = [] := by
  rw [specG, if_pos h]

theorem specG_step (n : Int) (s e : α × α) (d : Int) (h : ¬ n ≤ d) :
    specG n s e d =
      specG n s (firstPoint s e) (d + 1) ++ [firstPoint s e]
        ++ specG n (firstPoint s e) (secondPoint s e) (d + 1) ++ [secondPoint s e]
        ++ specG n (secondPoint s e) (thirdPoint s e) (d + 1) ++ [thirdPoint s e]
        ++ specG n (thirdPoint s e) e (d + 1) := by
  rw [specG, if_neg h]

/-- The cache-threading `generatePoint` appends the coordinates of `specG` and nothing else. -/
theorem generatePoint_eq_append (current : Int) (k : Nat) :
    ∀ (cache : List α) (s e : α × α) (d : Int), 0 ≤ d → (current - d).toNat = k →
      generatePoint current cache s.1 s.2 e.1 e.2 d = cache ++ coords (specG current s e d) := by
  induction k using Nat.strong_induction_on with
  | _ k ih =>
    intro cache s e d hd hk
    by_cases hg : current ≤ d
    · rw [generatePoint_stop _ _ _ _ _ _ _ (by omega), specG_stop _ _ _ _ hg]
      simp [coords]
    · have hguard : current > d ∧ d ≥ 0 ∧ current ≥ 0 := by omega
      have hlt : (current - (d + 1)).toNat < k := by omega
      rw [generatePoint_guard _ _ _ _ _ hguard, specG_step _ _ _ _ hg]
      rw [ih _ hlt _ _ _ _ (by omega) rfl, ih _ hlt _ _ _ _ (by omega) rfl,
        ih _ hlt _ _ _ _ (by omega) rfl, ih _ hlt _ _ _ _ (by omega) rfl]
      simp [coords_append, coords]

/-- The same with the coordinates passed one by one, as `Update` does. -/
theorem generatePoint_eq (current : Int) (cache : List α) (xs ys xe ye : α) (d : Int)
    (hd : 0 ≤ d) :
    generatePoint current cache xs ys xe ye d
      = cache ++ coords (specG current (xs, ys) (xe, ye) d) :=
  generatePoint_eq_append current _ cache (xs, ys) (xe, ye) d hd rfl

/-- An edge at depth `d` of a rebuild at depth `n` yields `4 ^ (n - d) - 1` points. -/
theorem length_specG (n : Int) (k : Nat) :
    ∀ (s e : α × α) (d : Int), (n - d).toNat = k → (specG n s e d).length = 4 ^ k - 1 := by
  induction k using Nat.strong_induction_on with
  | _ k ih =>
    intro s e d hk
    by_cases hg : n ≤ d
    · have hk0 : k = 0 := by omega
      rw [specG_stop _ _ _ _ hg, hk0]
      rfl
    · obtain ⟨j, rfl⟩ : ∃ j, k = j + 1 := ⟨k - 1, by omega⟩
      have hj : (n - (d + 1)).toNat = j := by omega
      rw [specG_step _ _ _ _ hg]
      simp only [List.length_append, List.length_singleton]
      rw [ih j (by omega) _ _ _ hj, ih j (by omega) _ _ _ hj, ih j (by omega) _ _ _ hj,
        ih j (by omega) _ _ _ hj]
      have hpos : 1 ≤ 4 ^ j := Nat.one_le_pow _ _ (by decide)
      rw [pow_succ]
      omega

theorem length_specLoop (n : Int) :
    (specLoop n : List (α × α)).length = 3 + 3 * (4 ^ n.toNat - 1) := by
  simp only [specLoop, List.length_append, List.length_singleton]
  rw [length_specG n n.toNat _ _ 0 (by simp), length_specG n n.toNat _ _ 0 (by simp),
    length_specG n n.toNat _ _ 0 (by simp)]
  omega

/-- What `Update` does when the requested depth differs from the realized one. -/
theorem Update_rebuild (st : KochCurveScene α) (h : st.current ≠ st.n) :
    Update st = { n := st.n, current := st.n, data := coords (specLoop st.n),
                  cache := coords (specLoop st.n) } := by
  have h0 : (0 : Int) ≤ 0 := le_refl 0
  unfold Update
  rw [if_pos h]
  simp only []
  rw [generatePoint_eq _ _ _ _ _ _ _ h0, generatePoint_eq _ _ _ _ _ _ _ h0,
    generatePoint_eq _ _ _ _ _ _ _ h0]
  simp [specLoop, coords_append, coords]

/-- What `Update` does when the requested depth is the realized one. -/
theorem Update_same (st : KochCurveScene α) (h : st.current = st.n) : Update st = st := by
  unfold Update
  rw [if_neg (not_not.mpr h)]

theorem specLoop_zero : coords (specLoop (0 : Int)) = ([-0.5, -0.5, 0.5, -0.5, 0.0, 0.5] : List α) := by
  simp [specLoop, specG_stop, coords]

/-- The cache invariant: in every reachable state both depths are in `[0, 10]` and `data` is
the rebuild for `current`. -/
theorem reachable_inv (st : KochCurveScene α) (h : Reachable st) :
    (0 ≤ st.n ∧ st.n ≤ 10) ∧ (0 ≤ st.current ∧ st.current ≤ 10)
      ∧ st.data = coords (specLoop st.current) := by
  have h010 : (0 : Int) ≤ 0 ∧ (0 : Int) ≤ 10 := ⟨le_refl 0, by decide⟩
  induction h with
  | default => exact ⟨h010, h010, specLoop_zero.symm⟩
  | new n =>
    refine ⟨?_, ?_, ?_⟩
    · unfold KochCurveScene.new
      simp only []
      split_ifs <;> constructor <;> simp only [] <;> omega
    · unfold KochCurveScene.new
      simp only []
      split_ifs <;> exact h010
    · unfold KochCurveScene.new
      simp only []
      split_ifs <;> exact specLoop_zero.symm
  | slider st v _ h0 h10 ih => exact ⟨⟨h0, h10⟩, ih.2⟩
  | update st _ ih =>
    by_cases hc : st.current = st.n
    · rw [Update_same st hc]
      exact ih
    · rw [Update_rebuild st hc]
      exact ⟨ih.1, ih.1, rfl⟩

/-- After the slider is set to `n` and `Update` has run on a reachable state, `data` is the
rebuild for `n` whether or not `Update` had to rebuild. -/
theorem data_after_update (st : KochCurveScene α) (n : Int) (h : Reachable st) :
    (Update (ImGuiRender st n)).data = coords (specLoop n) := by
  by_cases hc : (ImGuiRender st n).current = (ImGuiRender st n).n
  · rw [Update_same _ hc]
    have hc' : st.current = n := hc
    rw [← hc']
    exact (reachable_inv st h).2.2
  · rw [Update_rebuild _ hc]
    rfl

/-- Enough fuel: a bound above `current - depth` on the nesting of calls is never hit. -/
theorem generatePointFuel_eq (current : Int) (fuel : Nat) :
    ∀ (cache : List α) (xs ys xe ye : α) (d : Int), (current - d).toNat < fuel →
      generatePointFuel fuel current cache xs ys xe ye d
        = some (generatePoint current cache xs ys xe ye d) := by
  induction fuel with
  | zero => intro _ _ _ _ _ _ h; omega
  | succ fuel ih =>
    intro cache xs ys xe ye d h
    by_cases hg : current > d ∧ d ≥ 0 ∧ current ≥ 0
    · have hlt : (current - (d + 1)).toNat < fuel := by omega
      rw [generatePointFuel, if_pos hg, generatePoint, if_pos hg]
      simp only [ih _ _ _ _ _ _ hlt, Option.some_bind]
    · rw [generatePointFuel, if_neg hg, generatePoint_stop _ _ _ _ _ _ _ hg]

theorem length_data_after_update (st : KochCurveScene α) (n : Int) (h : Reachable st) :
    (Update (ImGuiRender st n)).data.length = 2 * (3 + 3 * (4 ^ n.toNat - 1)) := by
  rw [data_after_update st n h, length_coords, length_specLoop]

/-! ## The claims that hold for every carrier -/

/-- C1: for every depth `n` in `[0, 10]` (indeed every `n ≥ 0`), once the requested depth is `n`
and `Update` has run on a reachable state, the published sequence holds 3 points when `n = 0`
and `3 + 3 * (4 ^ n - 1)` points when `n ≥ 1`, a point being one `x, y` pair
(`data.size() / 2`); and a `generatePoint` call at depth 0 on any edge, so on each of the three
base edges, appends exactly `4 ^ n - 1` points (twice as many coordinates) to the cache. -/
theorem C1_point_count (st : KochCurveScene α) (n : Int) (hst : Reachable st) (h0 : 0 ≤ n) :
    (n = 0 → (Update (ImGuiRender st n)).data.length / 2 = 3)
    ∧ (1 ≤ n → (Update (ImGuiRender st n)).data.length / 2 = 3 + 3 * (4 ^ n.toNat - 1))
    ∧ (vertices (Update (ImGuiRender st n)).data).length
        = (Update (ImGuiRender st n)).data.length / 2
    ∧ (Update (ImGuiRender st n)).current = n
    ∧ ∀ (cache : List α) (xs ys xe ye : α),
        ∃ added : List (α × α),
          generatePoint n cache xs ys xe ye 0 = cache ++ coords added
          ∧ added.length = 4 ^ n.toNat - 1 := by
  have hlen := length_data_after_update st n hst
  refine ⟨?_, ?_, ?_, ?_, ?_⟩
  · intro hn
    subst hn
    rw [hlen]
    rfl
  · intro _
    rw [hlen]
    omega
  · rw [data_after_update st n hst, vertices_coords, length_coords]
    omega
  · by_cases hc : (ImGuiRender st n).current = (ImGuiRender st n).n
    · rw [Update_same _ hc]
      exact hc
    · rw [Update_rebuild _ hc]
      rfl
  · intro cache xs ys xe ye
    refine ⟨specG n (xs, ys) (xe, ye) 0, generatePoint_eq n cache xs ys xe ye 0 (le_refl 0), ?_⟩
    exact length_specG n n.toNat _ _ 0 (by simp)

/-- C2: for every realized depth `n` (in particular in `[0, 10]`), once the requested depth is
`n` and `Update` has run on a reachable state, and whenever `Update` rebuilds from any state,
the published sequence is `c0, G(c0,c1,0), c1, G(c1,c2,0), c2, G(c2,c0,0)`; `generatePoint`
only appends to the cache, namely the coordinates of `G`; and `G(s,e,d)` is empty when
`d ≥ n` and otherwise `G(s,p1,d+1), p1, G(p1,peak,d+1), peak, G(peak,p2,d+1), p2, G(p2,e,d+1)`
with `p1`, `peak`, `p2` the three points the code pushes. -/
theorem C2_sequence_order (st : KochCurveScene α) (n : Int) (hst : Reachable st) :
    vertices (Update (ImGuiRender st n)).data
        = [((-0.5 : α), (-0.5 : α))] ++ specG n (-0.5, -0.5) (0.5, -0.5) 0
          ++ [((0.5 : α), (-0.5 : α))] ++ specG n (0.5, -0.5) (0.0, 0.5) 0
          ++ [((0.0 : α), (0.5 : α))] ++ specG n (0.0, 0.5) (-0.5, -0.5) 0
    ∧ (Update (ImGuiRender st n)).data = coords (vertices (Update (ImGuiRender st n)).data)
    ∧ (∀ st0 : KochCurveScene α, st0.current ≠ st0.n → st0.n = n →
        (Update st0).data = (Update (ImGuiRender st n)).data)
    ∧ (∀ (cache : List α) (xs ys xe ye : α) (d : Int), 0 ≤ d →
        generatePoint n cache xs ys xe ye d = cache ++ coords (specG n (xs, ys) (xe, ye) d))
    ∧ (∀ (s e : α × α) (d : Int), d ≥ n → specG n s e d = [])
    ∧ (∀ (s e : α × α) (d : Int), d < n →
        specG n s e d =
          specG n s (firstPoint s e) (d + 1) ++ [firstPoint s e]
            ++ specG n (firstPoint s e) (secondPoint s e) (d + 1) ++ [secondPoint s e]
            ++ specG n (secondPoint s e) (thirdPoint s e) (d + 1) ++ [thirdPoint s e]
            ++ specG n (thirdPoint s e) e (d + 1)) := by
  have hdata := data_after_update st n hst
  refine ⟨?_, ?_, ?_, ?_, ?_, ?_⟩
  · rw [hdata, vertices_coords]
    rfl
  · rw [hdata, vertices_coords]
  · intro st0 hne hn
    rw [hdata, Update_rebuild st0 hne, hn]
  · intro cache xs ys xe ye d hd
    exact generatePoint_eq n cache xs ys xe ye d hd
  · intro s e d hd
    exact specG_stop n s e d hd
  · intro s e d hd
    exact specG_step n s e d (by omega)

/-- C3: from every prior state and for every requested depth (in particular in `[0, 10]`),
after `Update` the realized depth `current` equals the requested depth `n`, which `Update`
leaves alone; a further `Update` changes nothing (`n`, `current`, `data`, `cache` are the
whole state); and `Update` does nothing whenever `current == n`. -/
theorem C3_update_idempotent (st : KochCurveScene α) :
    (Update st).current = st.n
    ∧ (Update st).n = st.n
    ∧ Update (Update st) = Update st
    ∧ (st.current = st.n → Update st = st) := by
  have hcur : (Update st).current = st.n := by
    by_cases hc : st.current = st.n
    · rw [Update_same st hc]
      exact hc
    · rw [Update_rebuild st hc]
  have hn : (Update st).n = st.n := by
    by_cases hc : st.current = st.n
    · rw [Update_same st hc]
    · rw [Update_rebuild st hc]
  exact ⟨hcur, hn, Update_same _ (hcur.trans hn.symm), Update_same st⟩

/-- C4: in every state reachable from either constructor by slider moves within `[0, 10]` and
`Update` calls, `data` is what a rebuild by `Update` for requested depth `current` produces,
so two reachable states with the same `current` have the same `data`; and the depth sequence
`0 → 3 → 0`, from the default constructor as from any reachable state, ends with `data` equal
to the initial value `{-0.5,-0.5, 0.5,-0.5, 0.0,0.5}`. -/
theorem C4_data_is_rebuild_of_current (st : KochCurveScene α) (hst : Reachable st) :
    (∀ st0 : KochCurveScene α, st0.n = st.current → st0.current ≠ st0.n →
        st.data = (Update st0).data)
    ∧ (∀ st1 : KochCurveScene α, Reachable st1 → st1.current = st.current → st1.data = st.data)
    ∧ (Update (ImGuiRender (Update (ImGuiRender (Update (ImGuiRender st 0)) 3)) 0)).data
        = [-0.5, -0.5, 0.5, -0.5, 0.0, 0.5]
    ∧ (Update (ImGuiRender (Update (ImGuiRender
          (Update (KochCurveScene.default : KochCurveScene α)) 3)) 0)).data
        = (KochCurveScene.default : KochCurveScene α).data := by
  refine ⟨?_, ?_, ?_, ?_⟩
  · intro st0 hn hne
    rw [Update_rebuild st0 hne, hn]
    exact (reachable_inv st hst).2.2
  · intro st1 hst1 hcur
    rw [(reachable_inv st1 hst1).2.2, (reachable_inv st hst).2.2, hcur]
  · rw [data_after_update _ 0]
    · exact specLoop_zero
    · exact Reachable.update _ (Reachable.slider _ 3 (Reachable.update _
        (Reachable.slider _ 0 hst (le_refl 0) (by decide))) (by decide) (by decide))
  · rw [data_after_update _ 0]
    · exact specLoop_zero
    · exact Reachable.update _ (Reachable.slider _ 3 (Reachable.update _ Reachable.default)
        (by decide) (by decide))

/-- C5: for every integer `n` the constructor `KochCurveScene(n)` stores `n` clamped to the
nearest bound of `[0, 10]`: `0` when `n < 0`, `10` when `n > 10`, `n` itself otherwise; the
stored value is always in `[0, 10]` (no value is rejected); and the clamp `main` applies to a
successfully parsed argument gives the same value, before and after the constructor. -/
theorem C5_constructor_clamps (n : Int) :
    (KochCurveScene.new n : KochCurveScene α).n = max 0 (min n 10)
    ∧ (n < 0 → (KochCurveScene.new n : KochCurveScene α).n = 0)
    ∧ (n > 10 → (KochCurveScene.new n : KochCurveScene α).n = 10)
    ∧ (0 ≤ n → n ≤ 10 → (KochCurveScene.new n : KochCurveScene α).n = n)
    ∧ (0 ≤ (KochCurveScene.new n : KochCurveScene α).n
        ∧ (KochCurveScene.new n : KochCurveScene α).n ≤ 10)
    ∧ mainDepth 2 true n = (KochCurveScene.new n : KochCurveScene α).n
    ∧ (KochCurveScene.new (mainDepth 2 true n) : KochCurveScene α).n
        = (KochCurveScene.new n : KochCurveScene α).n := by
  have key : ∀ m : Int, (KochCurveScene.new m : KochCurveScene α).n
      = if m > 10 then 10 else if m < 0 then 0 else m := by
    intro m
    unfold KochCurveScene.new
    simp only []
    split_ifs <;> rfl
  have hmain : mainDepth 2 true n = if n < 0 then 0 else if n > 10 then 10 else n := by
    simp [mainDepth]
  rw [key (mainDepth 2 true n), hmain, key n]
  refine ⟨?_, ?_, ?_, ?_, ?_, ?_, ?_⟩
  · split_ifs <;> omega
  · intro h; split_ifs <;> omega
  · intro h; rw [if_pos h]
  · intro h h'; split_ifs <;> omega
  · split_ifs <;> omega
  · split_ifs <;> omega
  · split_ifs <;> omega

/-- C7 (amended): after `Update` at requested depth 1 the published sequence has 12 points,
and at requested depth 2 it has 48 points (a point being one `x, y` pair). -/
theorem C7_point_count_depth_1_2 (st : KochCurveScene α) (hst : Reachable st) :
    (Update (ImGuiRender st 1)).data.length / 2 = 12
    ∧ (Update (ImGuiRender st 2)).data.length / 2 = 48 := by
  rw [length_data_after_update st 1 hst, length_data_after_update st 2 hst]
  exact ⟨rfl, rfl⟩

end Generic

/-! ## Exact real arithmetic: the geometry of one subdivision -/

theorem lit3 : (3.0 : ℝ) = 3 := by norm_num

theorem lit2 : (2.0 : ℝ) = 2 := by norm_num

theorem lit05 : (0.5 : ℝ) = 1 / 2 := by norm_num

theorem sqrt_real (x : ℝ) : DoubleMath.sqrt x = Real.sqrt x := rfl

theorem pow_real (x y : ℝ) : DoubleMath.pow x y = x ^ y := rfl

theorem sqrt3_mul_self : Real.sqrt 3 * Real.sqrt 3 = 3 :=
  Real.mul_self_sqrt (by norm_num)

/-- The local `length` is a third of the Euclidean length of the edge. -/
theorem segLength_real (s e : ℝ × ℝ) : segLength s e = Real.sqrt (sqDist s e) / 3 := by
  unfold segLength sqDist
  rw [sqrt_real, pow_real, pow_real, lit2, lit3, Real.rpow_two, Real.rpow_two]
  rw [div_pow, div_pow, ← add_div, Real.sqrt_div (by positivity)]
  rw [show (3 : ℝ) ^ 2 = 9 by norm_num, show (9 : ℝ) = 3 ^ 2 by norm_num,
    Real.sqrt_sq (by norm_num), ← pow_two, ← pow_two]

theorem sqDist_pos (s e : ℝ × ℝ) (h : s ≠ e) : 0 < sqDist s e := by
  unfold sqDist
  have hne : e.1 - s.1 ≠ 0 ∨ e.2 - s.2 ≠ 0 := by
    by_contra hc
    push_neg at hc
    exact h (Prod.ext (by linarith [hc.1]) (by linarith [hc.2]))
  rcases hne with h1 | h1
  · nlinarith [mul_self_pos.mpr h1, mul_self_nonneg (e.2 - s.2)]
  · nlinarith [mul_self_pos.mpr h1, mul_self_nonneg (e.1 - s.1)]

theorem ne_of_sqDist_pos (a b : ℝ × ℝ) (h : 0 < sqDist a b) : a ≠ b := by
  intro hab
  subst hab
  simp [sqDist] at h

theorem segLength_pos (s e : ℝ × ℝ) (h : s ≠ e) : 0 < segLength s e := by
  rw [segLength_real]
  exact div_pos (Real.sqrt_pos.mpr (sqDist_pos s e h)) (by norm_num)

theorem firstPoint_real (s e : ℝ × ℝ) :
    firstPoint s e = ((e.1 - s.1) / 3 + s.1, (e.2 - s.2) / 3 + s.2) := by
  unfold firstPoint
  rw [lit3]

theorem thirdPoint_real (s e : ℝ × ℝ) :
    thirdPoint s e = (2 / 3 * (e.1 - s.1) + s.1, 2 / 3 * (e.2 - s.2) + s.2) := by
  unfold thirdPoint
  rw [lit3, lit2]

/-- With a non-zero `length` the two divisions cancel against `height`. -/
theorem secondPoint_real (s e : ℝ × ℝ) (h : s ≠ e) :
    secondPoint s e = (1 / 2 * (e.1 - s.1) + s.1 + Real.sqrt 3 / 6 * (e.2 - s.2),
      1 / 2 * (e.2 - s.2) + s.2 - Real.sqrt 3 / 6 * (e.1 - s.1)) := by
  have hl : segLength s e ≠ 0 := (segLength_pos s e h).ne'
  unfold secondPoint
  rw [sqrt_real, lit3, lit05]
  ext
  · simp only []
    field_simp
    ring
  · simp only []
    field_simp
    ring

theorem sub1_len (s e : ℝ × ℝ) : 9 * sqDist s (firstPoint s e) = sqDist s e := by
  rw [firstPoint_real]
  unfold sqDist
  simp only []
  ring

theorem sub2_len (s e : ℝ × ℝ) (h : s ≠ e) :
    9 * sqDist (firstPoint s e) (secondPoint s e) = sqDist s e := by
  rw [firstPoint_real, secondPoint_real s e h]
  unfold sqDist
  simp only []
  linear_combination ((e.1 - s.1) ^ 2 + (e.2 - s.2) ^ 2) / 4 * sqrt3_mul_self

theorem sub3_len (s e : ℝ × ℝ) (h : s ≠ e) :
    9 * sqDist (secondPoint s e) (thirdPoint s e) = sqDist s e := by
  rw [thirdPoint_real, secondPoint_real s e h]
  unfold sqDist
  simp only []
  linear_combination ((e.1 - s.1) ^ 2 + (e.2 - s.2) ^ 2) / 4 * sqrt3_mul_self

theorem sub4_len (s e : ℝ × ℝ) : 9 * sqDist (thirdPoint s e) e = sqDist s e := by
  rw [thirdPoint_real]
  unfold sqDist
  simp only []
  ring

theorem sub1_ne (s e : ℝ × ℝ) (h : s ≠ e) : s ≠ firstPoint s e :=
  ne_of_sqDist_pos _ _ (by linarith [sub1_len s e, sqDist_pos s e h])

theorem sub2_ne (s e : ℝ × ℝ) (h : s ≠ e) : firstPoint s e ≠ secondPoint s e :=
  ne_of_sqDist_pos _ _ (by linarith [sub2_len s e h, sqDist_pos s e h])

theorem sub3_ne (s e : ℝ × ℝ) (h : s ≠ e) : secondPoint s e ≠ thirdPoint s e :=
  ne_of_sqDist_pos _ _ (by linarith [sub3_len s e h, sqDist_pos s e h])

theorem sub4_ne (s e : ℝ × ℝ) (h : s ≠ e) : thirdPoint s e ≠ e :=
  ne_of_sqDist_pos _ _ (by linarith [sub4_len s e, sqDist_pos s e h])

/-- Every call made during a rebuild is on a non-degenerate edge, at a depth between 0 and
`current` (or at depth 0 when `current` is negative). -/
theorem called_inv (current : Int) (s e : ℝ × ℝ) (d : Int) (h : Called current s e d) :
    s ≠ e ∧ 0 ≤ d ∧ (d = 0 ∨ d ≤ current) := by
  induction h with
  | edge1 =>
    refine ⟨?_, le_refl 0, Or.inl rfl⟩
    intro hc
    have := congrArg Prod.fst hc
    norm_num at this
  | edge2 =>
    refine ⟨?_, le_refl 0, Or.inl rfl⟩
    intro hc
    have := congrArg Prod.fst hc
    norm_num at this
  | edge3 =>
    refine ⟨?_, le_refl 0, Or.inl rfl⟩
    intro hc
    have := congrArg Prod.fst hc
    norm_num at this
  | sub1 s e d _ hg ih => exact ⟨sub1_ne s e ih.1, by omega, Or.inr (by omega)⟩
  | sub2 s e d _ hg ih => exact ⟨sub2_ne s e ih.1, by omega, Or.inr (by omega)⟩
  | sub3 s e d _ hg ih => exact ⟨sub3_ne s e ih.1, by omega, Or.inr (by omega)⟩
  | sub4 s e d _ hg ih => exact ⟨sub4_ne s e ih.1, by omega, Or.inr (by omega)⟩

/-! ## Exact real arithmetic: the whole curve -/

/-- Along an expanded non-degenerate edge, from its start through the generated points to
its end, consecutive points differ. -/
theorem chain_specG (n : Int) (k : Nat) :
    ∀ (s e : ℝ × ℝ) (d : Int), (n - d).toNat = k → s ≠ e →
      List.Chain (fun p q => p ≠ q) s (specG n s e d ++ [e]) := by
  induction k using Nat.strong_induction_on with
  | _ k ih =>
    intro s e d hk hse
    by_cases hg : n ≤ d
    · rw [specG_stop _ _ _ _ hg]
      exact List.Chain.cons hse List.Chain.nil
    · have hlt : (n - (d + 1)).toNat < k := by omega
      rw [specG_step _ _ _ _ hg]
      simp only [List.append_assoc, List.singleton_append, List.cons_append]
      refine List.chain_split.mpr ⟨ih _ hlt _ _ _ rfl (sub1_ne s e hse), ?_⟩
      refine List.chain_split.mpr ⟨ih _ hlt _ _ _ rfl (sub2_ne s e hse), ?_⟩
      refine List.chain_split.mpr ⟨ih _ hlt _ _ _ rfl (sub3_ne s e hse), ?_⟩
      exact ih _ hlt _ _ _ rfl (sub4_ne s e hse)

theorem corner_ne_1 : ((-0.5 : ℝ), (-0.5 : ℝ)) ≠ (0.5, -0.5) := by
  intro hc
  have := congrArg Prod.fst hc
  norm_num at this

theorem corner_ne_2 : ((0.5 : ℝ), (-0.5 : ℝ)) ≠ (0.0, 0.5) := by
  intro hc
  have := congrArg Prod.fst hc
  norm_num at this

theorem corner_ne_3 : ((0.0 : ℝ), (0.5 : ℝ)) ≠ (-0.5, -0.5) := by
  intro hc
  have := congrArg Prod.fst hc
  norm_num at this

/-- The whole loop followed by its first corner has no two equal neighbours. -/
theorem chain_specLoop (n : Int) :
    List.Chain (fun p q : ℝ × ℝ => p ≠ q) (-0.5, -0.5)
      (specG n (-0.5, -0.5) (0.5, -0.5) 0 ++ [((0.5 : ℝ), (-0.5 : ℝ))]
        ++ specG n (0.5, -0.5) (0.0, 0.5) 0 ++ [((0.0 : ℝ), (0.5 : ℝ))]
        ++ specG n (0.0, 0.5) (-0.5, -0.5) 0 ++ [((-0.5 : ℝ), (-0.5 : ℝ))]) := by
  simp only [List.append_assoc, List.singleton_append, List.cons_append]
  refine List.chain_split.mpr ⟨chain_specG n _ _ _ 0 rfl corner_ne_1, ?_⟩
  refine List.chain_split.mpr ⟨chain_specG n _ _ _ 0 rfl corner_ne_2, ?_⟩
  exact chain_specG n _ _ _ 0 rfl corner_ne_3

/-- A list whose neighbours differ, also from the last element back to the first, has no
zero-length segment as a loop. -/
theorem noZeroSegment_of_chain {β : Type} (a : β × β) (l : List (β × β))
    (h : List.Chain (fun p q => p ≠ q) a (l ++ [a])) : NoZeroSegment (a :: l) := by
  intro i hi
  have hc : List.Chain' (fun p q : β × β => p ≠ q) ((a :: l) ++ [a]) := h
  have hlen : ((a :: l) ++ [a]).length = (a :: l).length + 1 := by simp
  have key := List.chain'_iff_get.mp hc i (by rw [hlen]; omega)
  simp only [List.get_eq_getElem] at key ⊢
  rw [List.getElem_append_left hi] at key
  by_cases hlast : i + 1 < (a :: l).length
  · rw [List.getElem_append_left hlast] at key
    have step : ∀ (j : Nat) (hj : j < (a :: l).length), j = i + 1 →
        (a :: l)[i] ≠ (a :: l)[j] := by
      intro j hj hji
      subst hji
      exact key
    exact step _ _ (Nat.mod_eq_of_lt hlast)
  · have hi1 : i + 1 = (a :: l).length := by omega
    rw [List.getElem_append_right (by omega)] at key
    have step : ∀ (j : Nat) (hj : j < (a :: l).length), j = 0 →
        (a :: l)[i] ≠ (a :: l)[j] := by
      intro j hj hj0
      subst hj0
      simpa using key
    exact step _ _ (by rw [hi1]; exact Nat.mod_self _)

/-- Passing from a sub-edge to its edge keeps a point in the disc, when the sub-edge is a
third as long and its midpoint is within a third of the edge from the midpoint of the edge. -/
theorem disc_step (s e a b q : ℝ × ℝ) (hlen : 9 * sqDist a b = sqDist s e)
    (hmid : 9 * ((a.1 + b.1 - s.1 - e.1) ^ 2 + (a.2 + b.2 - s.2 - e.2) ^ 2) ≤ 4 * sqDist s e)
    (hq : InDisc a b q) : InDisc s e q := by
  unfold InDisc at hq ⊢
  nlinarith [sq_nonneg (2 * (q.1 + q.1 - a.1 - b.1) - (a.1 + b.1 - s.1 - e.1)),
    sq_nonneg (2 * (q.2 + q.2 - a.2 - b.2) - (a.2 + b.2 - s.2 - e.2))]

theorem sub1_mid (s e : ℝ × ℝ) :
    9 * ((s.1 + (firstPoint s e).1 - s.1 - e.1) ^ 2
        + (s.2 + (firstPoint s e).2 - s.2 - e.2) ^ 2) ≤ 4 * sqDist s e := by
  rw [firstPoint_real]
  unfold sqDist
  simp only []
  apply le_of_eq
  ring

theorem sub2_mid (s e : ℝ × ℝ) (h : s ≠ e) :
    9 * (((firstPoint s e).1 + (secondPoint s e).1 - s.1 - e.1) ^ 2
        + ((firstPoint s e).2 + (secondPoint s e).2 - s.2 - e.2) ^ 2) ≤ 4 * sqDist s e := by
  rw [firstPoint_real, secondPoint_real s e h]
  unfold sqDist
  simp only []
  nlinarith [sqrt3_mul_self, mul_self_nonneg (e.1 - s.1), mul_self_nonneg (e.2 - s.2)]

theorem sub3_mid (s e : ℝ × ℝ) (h : s ≠ e) :
    9 * (((secondPoint s e).1 + (thirdPoint s e).1 - s.1 - e.1) ^ 2
        + ((secondPoint s e).2 + (thirdPoint s e).2 - s.2 - e.2) ^ 2) ≤ 4 * sqDist s e := by
  rw [thirdPoint_real, secondPoint_real s e h]
  unfold sqDist
  simp only []
  nlinarith [sqrt3_mul_self, mul_self_nonneg (e.1 - s.1), mul_self_nonneg (e.2 - s.2)]

theorem sub4_mid (s e : ℝ × ℝ) :
    9 * (((thirdPoint s e).1 + e.1 - s.1 - e.1) ^ 2
        + ((thirdPoint s e).2 + e.2 - s.2 - e.2) ^ 2) ≤ 4 * sqDist s e := by
  rw [thirdPoint_real]
  unfold sqDist
  simp only []
  apply le_of_eq
  ring

theorem firstPoint_inDisc (s e : ℝ × ℝ) : InDisc s e (firstPoint s e) := by
  rw [firstPoint_real]
  unfold InDisc sqDist
  simp only []
  nlinarith [mul_self_nonneg (e.1 - s.1), mul_self_nonneg (e.2 - s.2)]

theorem secondPoint_inDisc (s e : ℝ × ℝ) (h : s ≠ e) : InDisc s e (secondPoint s e) := by
  rw [secondPoint_real s e h]
  unfold InDisc sqDist
  simp only []
  nlinarith [sqrt3_mul_self, mul_self_nonneg (e.1 - s.1), mul_self_nonneg (e.2 - s.2)]

theorem thirdPoint_inDisc (s e : ℝ × ℝ) : InDisc s e (thirdPoint s e) := by
  rw [thirdPoint_real]
  unfold InDisc sqDist
  simp only []
  nlinarith [mul_self_nonneg (e.1 - s.1), mul_self_nonneg (e.2 - s.2)]

/-- Every point generated for a non-degenerate edge lies in the disc over that edge. -/
theorem disc_specG (n : Int) (k : Nat) :
    ∀ (s e : ℝ × ℝ) (d : Int), (n - d).toNat = k → s ≠ e →
      ∀ q ∈ specG n s e d, InDisc s e q := by
  induction k using Nat.strong_induction_on with
  | _ k ih =>
    intro s e d hk hse q hq
    by_cases hg : n ≤ d
    · rw [specG_stop _ _ _ _ hg] at hq
      simp at hq
    · have hlt : (n - (d + 1)).toNat < k := by omega
      rw [specG_step _ _ _ _ hg] at hq
      simp only [List.mem_append, List.mem_singleton] at hq
      rcases hq with (((((h1 | h1) | h1) | h1) | h1) | h1) | h1
      · exact disc_step s e _ _ q (sub1_len s e) (sub1_mid s e)
          (ih _ hlt _ _ _ rfl (sub1_ne s e hse) q h1)
      · rw [h1]; exact firstPoint_inDisc s e
      · exact disc_step s e _ _ q (sub2_len s e hse) (sub2_mid s e hse)
          (ih _ hlt _ _ _ rfl (sub2_ne s e hse) q h1)
      · rw [h1]; exact secondPoint_inDisc s e hse
      · exact disc_step s e _ _ q (sub3_len s e hse) (sub3_mid s e hse)
          (ih _ hlt _ _ _ rfl (sub3_ne s e hse) q h1)
      · rw [h1]; exact thirdPoint_inDisc s e
      · exact disc_step s e _ _ q (sub4_len s e) (sub4_mid s e)
          (ih _ hlt _ _ _ rfl (sub4_ne s e hse) q h1)

theorem sqDist_nonneg (a b : ℝ × ℝ) : 0 ≤ sqDist a b := by
  unfold sqDist
  nlinarith [mul_self_nonneg (b.1 - a.1), mul_self_nonneg (b.2 - a.2)]

/-- A segment whose squared length is a ninth has a third of the length. -/
theorem sqrt_third (x D : ℝ) (h : 9 * x = D) (hx : 0 ≤ x) :
    Real.sqrt x = Real.sqrt D / 3 := by
  have hD : 0 ≤ D := by linarith
  rw [Real.sqrt_eq_iff_mul_self_eq hx (by positivity)]
  have hs : Real.sqrt D * Real.sqrt D = D := Real.mul_self_sqrt hD
  linear_combination (-1 / 9 : ℝ) * hs + (1 / 9 : ℝ) * h

/-- The first base edge at realized depth 1: exactly the three points of one subdivision. -/
theorem generatePoint_base_depth_one (cache : List ℝ) :
    generatePoint 1 cache (-0.5) (-0.5) 0.5 (-0.5) 0
      = cache ++ [-0.5 + 1 / 3, -0.5, 0, -0.5 - Real.sqrt 3 / 6, -0.5 + 2 / 3, -0.5] := by
  rw [generatePoint_eq 1 cache _ _ _ _ 0 (le_refl 0), specG_step _ _ _ _ (by decide),
    specG_stop _ _ _ _ (by decide), specG_stop _ _ _ _ (by decide),
    specG_stop _ _ _ _ (by decide), specG_stop _ _ _ _ (by decide),
    secondPoint_real _ _ corner_ne_1, firstPoint_real, thirdPoint_real]
  simp only [coords, List.nil_append, List.singleton_append, List.cons_append]
  congr 1
  norm_num

/-! ## The claims under the exact real reading -/

/-- C6: reading the arithmetic as exact real arithmetic, for every edge with `start ≠ end`
that `generatePoint` subdivides, the three points pushed at that level, each right after the
recursive call on the sub-edge ending in it, are `p1 = start + (end - start)/3`,
`p2 = start + 2 (end - start)/3` and a `peak` that is the midpoint of `p1 p2` displaced along
the unit right-hand normal of `start → end` by `sqrt 3 / 2 * |end - start| / 3`: the
displacement is perpendicular to the edge, has that length, lies to the right of the
direction `start → end`, and `|p1 peak| = |peak p2| = |p1 p2| = |end - start| / 3`.  For the
base edge `(-0.5,-0.5) → (0.5,-0.5)` at realized depth 1 the pushed coordinates are those of
`(-0.5 + 1/3, -0.5)`, `(0, -0.5 - sqrt 3 / 6)`, `(-0.5 + 2/3, -0.5)`, and that peak is no
convex combination of the three corners: it lies outside the base triangle. -/
theorem C6_equilateral_bump (s e : ℝ × ℝ) (hse : s ≠ e) :
    (∀ (current : Int) (cache : List ℝ) (d : Int), (current > d ∧ d ≥ 0 ∧ current ≥ 0) →
      generatePoint current cache s.1 s.2 e.1 e.2 d =
        generatePoint current
          (generatePoint current
            (generatePoint current
              (generatePoint current cache s.1 s.2 (firstPoint s e).1 (firstPoint s e).2 (d + 1)
                ++ [(firstPoint s e).1] ++ [(firstPoint s e).2])
              (firstPoint s e).1 (firstPoint s e).2 (secondPoint s e).1 (secondPoint s e).2
              (d + 1)
              ++ [(secondPoint s e).1] ++ [(secondPoint s e).2])
            (secondPoint s e).1 (secondPoint s e).2 (thirdPoint s e).1 (thirdPoint s e).2
            (d + 1)
            ++ [(thirdPoint s e).1] ++ [(thirdPoint s e).2])
          (thirdPoint s e).1 (thirdPoint s e).2 e.1 e.2 (d + 1))
    ∧ firstPoint s e = (s.1 + (e.1 - s.1) / 3, s.2 + (e.2 - s.2) / 3)
    ∧ thirdPoint s e = (s.1 + 2 * (e.1 - s.1) / 3, s.2 + 2 * (e.2 - s.2) / 3)
    ∧ secondPoint s e =
        (((firstPoint s e).1 + (thirdPoint s e).1) / 2
            + Real.sqrt 3 / 2 * (Real.sqrt (sqDist s e) / 3)
              * ((e.2 - s.2) / Real.sqrt (sqDist s e)),
         ((firstPoint s e).2 + (thirdPoint s e).2) / 2
            + Real.sqrt 3 / 2 * (Real.sqrt (sqDist s e) / 3)
              * (-(e.1 - s.1) / Real.sqrt (sqDist s e)))
    ∧ ((secondPoint s e).1 - ((firstPoint s e).1 + (thirdPoint s e).1) / 2) * (e.1 - s.1)
        + ((secondPoint s e).2 - ((firstPoint s e).2 + (thirdPoint s e).2) / 2) * (e.2 - s.2)
        = 0
    ∧ Real.sqrt (sqDist (((firstPoint s e).1 + (thirdPoint s e).1) / 2,
          ((firstPoint s e).2 + (thirdPoint s e).2) / 2) (secondPoint s e))
        = Real.sqrt 3 / 2 * (Real.sqrt (sqDist s e) / 3)
    ∧ Real.sqrt (sqDist (firstPoint s e) (secondPoint s e)) = Real.sqrt (sqDist s e) / 3
    ∧ Real.sqrt (sqDist (secondPoint s e) (thirdPoint s e)) = Real.sqrt (sqDist s e) / 3
    ∧ Real.sqrt (sqDist (firstPoint s e) (thirdPoint s e)) = Real.sqrt (sqDist s e) / 3
    ∧ (e.1 - s.1) * ((secondPoint s e).2 - s.2) - (e.2 - s.2) * ((secondPoint s e).1 - s.1) < 0
    ∧ (∀ cache : List ℝ, generatePoint 1 cache (-0.5) (-0.5) 0.5 (-0.5) 0
        = cache ++ [-0.5 + 1 / 3, -0.5, 0, -0.5 - Real.sqrt 3 / 6, -0.5 + 2 / 3, -0.5])
    ∧ (∀ a b c : ℝ, 0 ≤ a → 0 ≤ b → 0 ≤ c → a + b + c = 1 →
        ((0 : ℝ), -0.5 - Real.sqrt 3 / 6)
          ≠ (a * -0.5 + b * 0.5 + c * 0.0, a * -0.5 + b * -0.5 + c * 0.5)) := by
  have hD : 0 < sqDist s e := sqDist_pos s e hse
  have hLL : Real.sqrt (sqDist s e) * Real.sqrt (sqDist s e) = sqDist s e :=
    Real.mul_self_sqrt hD.le
  have h3 : 0 < Real.sqrt 3 := Real.sqrt_pos.mpr (by norm_num)
  refine ⟨?_, ?_, ?_, ?_, ?_, ?_, ?_, ?_, ?_, ?_, ?_, ?_⟩
  · intro current cache d hg
    exact generatePoint_guard current cache s e d hg
  · rw [firstPoint_real]
    ext <;> simp only [] <;> ring
  · rw [thirdPoint_real]
    ext <;> simp only [] <;> ring
  · rw [secondPoint_real s e hse, firstPoint_real, thirdPoint_real]
    ext
    · simp only []
      field_simp
      ring
    · simp only []
      field_simp
      ring
  · rw [secondPoint_real s e hse, firstPoint_real, thirdPoint_real]
    simp only []
    ring
  · rw [Real.sqrt_eq_iff_mul_self_eq (sqDist_nonneg _ _) (by positivity)]
    rw [secondPoint_real s e hse, firstPoint_real, thirdPoint_real]
    have hLL' := hLL
    unfold sqDist at hLL' ⊢
    simp only []
    linear_combination (-(Real.sqrt 3 * Real.sqrt 3) / 36) * hLL'
  · exact sqrt_third _ _ (sub2_len s e hse) (sqDist_nonneg _ _)
  · exact sqrt_third _ _ (sub3_len s e hse) (sqDist_nonneg _ _)
  · refine sqrt_third _ _ ?_ (sqDist_nonneg _ _)
    rw [firstPoint_real, thirdPoint_real]
    unfold sqDist
    simp only []
    ring
  · rw [secondPoint_real s e hse]
    have hD' := hD
    unfold sqDist at hD'
    simp only []
    nlinarith [mul_pos h3 hD']
  · exact generatePoint_base_depth_one
  · intro a b c ha hb hc habc hpt
    have h2 := congrArg Prod.snd hpt
    simp only [] at h2
    norm_num at h2
    nlinarith

theorem specLoop_cons (n : Int) :
    (specLoop n : List (ℝ × ℝ)) = (-0.5, -0.5) ::
      (specG n (-0.5, -0.5) (0.5, -0.5) 0 ++ [((0.5 : ℝ), (-0.5 : ℝ))]
        ++ specG n (0.5, -0.5) (0.0, 0.5) 0 ++ [((0.0 : ℝ), (0.5 : ℝ))]
        ++ specG n (0.0, 0.5) (-0.5, -0.5) 0) := by
  simp [specLoop]

/-- The disc over each base edge lies in the square `[-1, 1] × [-1, 1]`. -/
theorem box_of_inDisc (q : ℝ × ℝ)
    (h : InDisc (-0.5, -0.5) (0.5, -0.5) q ∨ InDisc (0.5, -0.5) (0.0, 0.5) q
      ∨ InDisc (0.0, 0.5) (-0.5, -0.5) q) :
    (-1 ≤ q.1 ∧ q.1 ≤ 1) ∧ (-1 ≤ q.2 ∧ q.2 ≤ 1) := by
  unfold InDisc sqDist at h
  simp only [] at h
  norm_num at h
  rcases h with h | h | h
  · refine ⟨⟨?_, ?_⟩, ?_, ?_⟩ <;> nlinarith [sq_nonneg (q.1 + q.1), sq_nonneg (q.2 + q.2 + 1)]
  · refine ⟨⟨?_, ?_⟩, ?_, ?_⟩ <;>
      nlinarith [sq_nonneg (q.1 + q.1 - 1 / 2), sq_nonneg (q.2 + q.2)]
  · refine ⟨⟨?_, ?_⟩, ?_, ?_⟩ <;>
      nlinarith [sq_nonneg (q.1 + q.1 + 1 / 2), sq_nonneg (q.2 + q.2)]

/-- C8: reading the arithmetic as exact real arithmetic, for every depth `n` (in particular
in `[0, 10]`), the vertex sequence published once the requested depth is `n` and `Update` has
run on a reachable state has at least three points and, as a closed loop, no two cyclically
consecutive equal points: no segment of the line loop has zero length. -/
theorem C8_no_zero_length_segment (st : KochCurveScene ℝ) (n : Int) (hst : Reachable st) :
    3 ≤ (vertices (Update (ImGuiRender st n)).data).length
    ∧ NoZeroSegment (vertices (Update (ImGuiRender st n)).data) := by
  rw [data_after_update st n hst, vertices_coords]
  refine ⟨?_, ?_⟩
  · rw [length_specLoop]
    omega
  · rw [specLoop_cons]
    exact noZeroSegment_of_chain _ _ (chain_specLoop n)

/-- C9: reading the arithmetic as exact real arithmetic, for every depth `n` (in particular
in `[0, 10]`), every vertex `(x, y)` published once the requested depth is `n` and `Update`
has run on a reachable state satisfies `-1 ≤ x ≤ 1` and `-1 ≤ y ≤ 1`: the curve stays in the
bounding box `[-0.5, 0.5] × [-0.5, 0.5]` of the base triangle inflated by the factor 2,
whatever the depth. -/
theorem C9_points_in_inflated_box (st : KochCurveScene ℝ) (n : Int) (hst : Reachable st) :
    ∀ p ∈ vertices (Update (ImGuiRender st n)).data,
      (-1 ≤ p.1 ∧ p.1 ≤ 1) ∧ (-1 ≤ p.2 ∧ p.2 ≤ 1) := by
  intro p hp
  rw [data_after_update st n hst, vertices_coords] at hp
  simp only [specLoop, List.mem_append, List.mem_singleton] at hp
  rcases hp with ((((h | h) | h) | h) | h) | h
  · rw [h]; norm_num
  · exact box_of_inDisc p (Or.inl (disc_specG n _ _ _ 0 rfl corner_ne_1 p h))
  · rw [h]; norm_num
  · exact box_of_inDisc p (Or.inr (Or.inl (disc_specG n _ _ _ 0 rfl corner_ne_2 p h)))
  · rw [h]; norm_num
  · exact box_of_inDisc p (Or.inr (Or.inr (disc_specG n _ _ _ 0 rfl corner_ne_3 p h)))

/-- C10: reading the arithmetic as exact real arithmetic, for every realized depth `current`
in `[0, 10]`, every `generatePoint` call made during a rebuild by `Update` is at a depth
between 0 and `current`; when it passes the guard of the subdividing branch its start differs
from its end, so `length` is strictly positive and the divisions by `length` do not divide by
zero; and the recursion terminates: a bound of 11 on the nesting of calls is never hit, the
fuelled run returns the result of `generatePoint`. -/
theorem C10_no_division_by_zero (current : Int) (h0 : 0 ≤ current) (h10 : current ≤ 10)
    (s e : ℝ × ℝ) (d : Int) (hc : Called current s e d) :
    (0 ≤ d ∧ d ≤ current)
    ∧ ((current > d ∧ d ≥ 0 ∧ current ≥ 0) →
        s ≠ e ∧ 0 < segLength s e ∧ segLength s e ≠ 0)
    ∧ (∀ cache : List ℝ,
        generatePointFuel 11 current cache s.1 s.2 e.1 e.2 d
          = some (generatePoint current cache s.1 s.2 e.1 e.2 d)) := by
  have hinv := called_inv current s e d hc
  refine ⟨⟨hinv.2.1, by omega⟩, ?_, ?_⟩
  · intro _
    exact ⟨hinv.1, segLength_pos s e hinv.1, (segLength_pos s e hinv.1).ne'⟩
  · intro cache
    exact generatePointFuel_eq current 11 cache _ _ _ _ d (by omega)

/-! ## Concrete runs -/

/-- Depth 3 from the default constructor, machine doubles: 192 points. -/
theorem C1_point_count_witness :
    (Update (ImGuiRender (KochCurveScene.default : KochCurveScene Float) 3)).data.length / 2
      = 3 + 3 * (4 ^ (3 : Int).toNat - 1) :=
  (C1_point_count KochCurveScene.default 3 Reachable.default (by decide)).2.1 (by decide)

/-- The constructor `KochCurveScene(7)`, then the slider at 1, machine doubles. -/
theorem C2_sequence_order_witness :
    vertices (Update (ImGuiRender (KochCurveScene.new 7 : KochCurveScene Float) 1)).data
      = [((-0.5 : Float), (-0.5 : Float))] ++ specG 1 (-0.5, -0.5) (0.5, -0.5) 0
        ++ [((0.5 : Float), (-0.5 : Float))] ++ specG 1 (0.5, -0.5) (0.0, 0.5) 0
        ++ [((0.0 : Float), (0.5 : Float))] ++ specG 1 (0.0, 0.5) (-0.5, -0.5) 0 :=
  (C2_sequence_order (KochCurveScene.new 7) 1 (Reachable.new 7)).1

/-- The constructor `KochCurveScene(5)`, then the depths 0, 3, 0, machine doubles. -/
theorem C4_data_is_rebuild_of_current_witness :
    (Update (ImGuiRender (Update (ImGuiRender (Update
        (ImGuiRender (KochCurveScene.new 5 : KochCurveScene Float) 0)) 3)) 0)).data
      = [-0.5, -0.5, 0.5, -0.5, 0.0, 0.5] :=
  (C4_data_is_rebuild_of_current (KochCurveScene.new 5) (Reachable.new 5)).2.2.1

/-- C7 as stated fails: from the constructor `KochCurveScene(1)` the published sequence after
`Update` has 12 points, not 15. -/
theorem C7_counterexample :
    (Update (KochCurveScene.new 1 : KochCurveScene Float)).data.length / 2 = 12
    ∧ ¬ ((Update (KochCurveScene.new 1 : KochCurveScene Float)).data.length / 2 = 15) := by
  have h : (Update (KochCurveScene.new 1 : KochCurveScene Float)).data.length = 24 := by
    rw [Update_rebuild _ (by decide), length_coords, length_specLoop]
    rfl
  rw [h]
  exact ⟨rfl, by decide⟩

/-- The default constructor, then the slider at 1 and at 2, machine doubles. -/
theorem C7_point_count_depth_1_2_witness :
    (Update (ImGuiRender (KochCurveScene.default : KochCurveScene Float) 1)).data.length / 2 = 12
    ∧ (Update (ImGuiRender (KochCurveScene.default : KochCurveScene Float) 2)).data.length / 2
      = 48 :=
  C7_point_count_depth_1_2 KochCurveScene.default Reachable.default

/-- The edge from `(0, 0)` to `(3, 0)`: its first trisection point. -/
theorem C6_equilateral_bump_witness :
    firstPoint ((0 : ℝ), (0 : ℝ)) (3, 0) = (0 + (3 - 0) / 3, 0 + (0 - 0) / 3) :=
  (C6_equilateral_bump (0, 0) (3, 0) (by
    intro hc
    have := congrArg Prod.fst hc
    norm_num at this)).2.1

/-- Depth 2 from the default constructor, exact reals: the 48 vertices form a loop without a
zero-length segment. -/
theorem C8_no_zero_length_segment_witness :
    NoZeroSegment
      (vertices (Update (ImGuiRender (KochCurveScene.default : KochCurveScene ℝ) 2)).data) :=
  (C8_no_zero_length_segment KochCurveScene.default 2 Reachable.default).2

/-- The peak over the first base edge at depth 1 is a published vertex and lies in the box. -/
theorem C9_points_in_inflated_box_witness :
    secondPoint ((-0.5 : ℝ), (-0.5 : ℝ)) (0.5, -0.5)
        ∈ vertices (Update (ImGuiRender (KochCurveScene.new 4 : KochCurveScene ℝ) 1)).data
    ∧ (-1 ≤ (secondPoint ((-0.5 : ℝ), (-0.5 : ℝ)) (0.5, -0.5)).1
        ∧ (secondPoint ((-0.5 : ℝ), (-0.5 : ℝ)) (0.5, -0.5)).1 ≤ 1)
    ∧ (-1 ≤ (secondPoint ((-0.5 : ℝ), (-0.5 : ℝ)) (0.5, -0.5)).2
        ∧ (secondPoint ((-0.5 : ℝ), (-0.5 : ℝ)) (0.5, -0.5)).2 ≤ 1) := by
  have hmem : secondPoint ((-0.5 : ℝ), (-0.5 : ℝ)) (0.5, -0.5)
      ∈ vertices (Update (ImGuiRender (KochCurveScene.new 4 : KochCurveScene ℝ) 1)).data := by
    rw [data_after_update _ 1 (Reachable.new 4), vertices_coords, specLoop_cons,
      specG_step 1 (-0.5, -0.5) (0.5, -0.5) 0 (by decide)]
    simp
  exact ⟨hmem, C9_points_in_inflated_box (KochCurveScene.new 4) 1 (Reachable.new 4) _ hmem⟩

/-- The first call of `Update` at realized depth 1 divides by a positive `length`. -/
theorem C10_no_division_by_zero_witness :
    0 < segLength ((-0.5 : ℝ), (-0.5 : ℝ)) (0.5, -0.5) :=
  ((C10_no_division_by_zero 1 (by decide) (by decide) (-0.5, -0.5) (0.5, -0.5) 0
    Called.edge1).2.1 (by decide)).2.1

end KochCurve
